import Mathlib

/-!
Verification of the `pycap` ICAP client (CaptainDriftwood/python-icap).

Shallow embedding of the protocol core of `src/pycap`:
chunked transfer codec (`_protocol.py`, `icap.py::_read_chunked_body`),
RESPMOD request building (`icap.py::respmod`, `async_icap.py::respmod`),
the response parser (`response.py::IcapResponse.parse`), the receive loop
(`icap.py::_send_and_receive`, `icap.py::_receive_response`), the preview
negotiation (`async_icap.py::_send_with_preview`) and the chunked stream
scanner (`icap.py::_scan_stream_chunked`).

Bytes are modelled as `List Nat` (each element a byte value); the byte
sources behind `socket.recv` / `StreamReader.read` are modelled as lists of
read results, where an exhausted list behaves like a closed connection
(reads return the empty byte string, as a closed socket does).
-/

namespace Pycap

/-! ## Generic list machinery: Python `bytes.split(sep, ...)` and friends -/

/-- Index of the first occurrence of `sep` inside `l` (`bytes.find`);
`none` when `sep` never occurs. -/
def findSub [DecidableEq α] (sep : List α) : List α → Option Nat
  | [] => if sep.isPrefixOf ([] : List α) then some 0 else none
  | a :: t => if sep.isPrefixOf (a :: t) then some 0 else (findSub sep t).map (· + 1)

/-- Python `l.split(sep, 1)`: the part before the first occurrence of `sep`,
and — when `sep` occurs — the part after it. -/
def splitOnce [DecidableEq α] (sep : List α) (l : List α) :
    List α × Option (List α) :=
  match findSub sep l with
  | none => (l, none)
  | some i => (l.take i, some (l.drop (i + sep.length)))

/-- Python `l.split(sep)` (no maxsplit), with `fuel` bounding the number of
pieces; `fuel = l.length + 1` always suffices for nonempty `sep`. -/
def splitAllGo [DecidableEq α] (sep : List α) : Nat → List α → List (List α)
  | 0, l => [l]
  | fuel + 1, l =>
    match splitOnce sep l with
    | (piece, none) => [piece]
    | (piece, some rest) => piece :: splitAllGo sep fuel rest

/-- Python `l.split(sep)` for nonempty `sep`. -/
def splitAll [DecidableEq α] (sep : List α) (l : List α) : List (List α) :=
  splitAllGo sep (l.length + 1) l

/-! ## Python primitives on bytes and characters

ASCII-faithful models of the Python builtins the source uses.  Non-ASCII
subtleties of `int()` (Unicode digits, Unicode whitespace) are outside the
modelled range; every string the protocol code feeds into them is ASCII. -/

/-- ASCII whitespace, the set stripped by `bytes.strip()` / `str.strip()`. -/
def isPySpaceByte (b : Nat) : Bool :=
  b = 32 || b = 9 || b = 10 || b = 13 || b = 11 || b = 12

/-- Python `bytes.strip()` (no argument): drop ASCII whitespace from both
ends. -/
def pyStripBytes (l : List Nat) : List Nat :=
  ((l.dropWhile isPySpaceByte).reverse.dropWhile isPySpaceByte).reverse

/-- Python `str.encode("utf-8")` for ASCII strings / character-code view of a
string; every string built by the protocol code is ASCII. -/
def strBytes (s : String) : List Nat :=
  s.data.map Char.toNat

/-- Python `str.strip()` restricted to ASCII whitespace. -/
def pyStripChars (l : List Char) : List Char :=
  ((l.dropWhile (fun ch => isPySpaceByte ch.toNat)).reverse.dropWhile
    (fun ch => isPySpaceByte ch.toNat)).reverse

/-- Python `str.lower()` for ASCII characters. -/
def toLowerChars (l : List Char) : List Char :=
  l.map Char.toLower

/-- Value of an ASCII hexadecimal digit byte (`0-9`, `A-F`, `a-f`). -/
def hexDigitVal (b : Nat) : Option Nat :=
  if 48 ≤ b ∧ b ≤ 57 then some (b - 48)
  else if 65 ≤ b ∧ b ≤ 70 then some (b - 55)
  else if 97 ≤ b ∧ b ≤ 102 then some (b - 87)
  else none

/-- Value of an ASCII decimal digit byte. -/
def decDigitVal (b : Nat) : Option Nat :=
  if 48 ≤ b ∧ b ≤ 57 then some (b - 48) else none

/-- Digit-string accumulator of Python `int(s, base)`: digits with single
underscores allowed between digits (byte 95 is `_`).  The caller has
already checked that the first byte is a digit. -/
def digitsCore (dv : Nat → Option Nat) (base : Nat) : Nat → List Nat → Option Nat
  | acc, [] => some acc
  | acc, d :: rest =>
    if d = 95 then
      match rest with
      | d2 :: _ => if (dv d2).isSome then digitsCore dv base acc rest else none
      | [] => none
    else
      match dv d with
      | some v => digitsCore dv base (base * acc + v) rest
      | none => none

/-- Digit part of Python `int(s, base)`: nonempty, starts with a digit,
underscores only between digits. -/
def pyIntOfDigits (dv : Nat → Option Nat) (base : Nat) (l : List Nat) : Option Nat :=
  match l with
  | [] => none
  | d :: _ => if (dv d).isSome then digitsCore dv base 0 l else none

/-- Optional leading sign of Python `int()` (`+` is 43, `-` is 45). -/
def pySignSplit (l : List Nat) : Int × List Nat :=
  match l with
  | [] => (1, [])
  | b :: t => if b = 43 then (1, t) else if b = 45 then (-1, t) else (1, b :: t)

/-- Optional `0x` / `0X` prefix accepted by `int(s, 16)`, including the
underscore Python allows right after the prefix (`int("0x_1A", 16)`). -/
def pyHexDropPfx (l : List Nat) : List Nat :=
  match l with
  | b :: ch :: t =>
    if b = 48 ∧ (ch = 120 ∨ ch = 88) then
      match t with
      | 95 :: d :: t2 => if (hexDigitVal d).isSome then d :: t2 else 95 :: d :: t2
      | _ => t
    else b :: ch :: t
  | l => l

/-- Python `int(s, 16)` on a byte string: strip ASCII whitespace, optional
sign, optional `0x` prefix, hex digits with underscores. -/
def pyIntHexBytes (l : List Nat) : Option Int :=
  let s := pyStripBytes l
  let sg := pySignSplit s
  let s2 := pyHexDropPfx sg.2
  (pyIntOfDigits hexDigitVal 16 s2).map fun n => sg.1 * (n : Int)

/-- Python `int(s)` (base 10) on a byte string. -/
def pyIntDecBytes (l : List Nat) : Option Int :=
  let s := pyStripBytes l
  let sg := pySignSplit s
  (pyIntOfDigits decDigitVal 10 sg.2).map fun n => sg.1 * (n : Int)

/-- Python `int(s)` on a decoded string (ASCII range modelled). -/
def pyIntDecChars (l : List Char) : Option Int :=
  pyIntDecBytes (l.map Char.toNat)

/-- Python slice `l[:i]` for an `int` index (negative indices count from
the end, clamped at 0). -/
def pySliceStop (i : Int) (l : List α) : List α :=
  if i < 0 then l.take ((l.length : Int) + i).toNat else l.take i.toNat

/-- Python slice `l[i:]` for an `int` index. -/
def pySliceStart (i : Int) (l : List α) : List α :=
  if i < 0 then l.drop ((l.length : Int) + i).toNat else l.drop i.toNat

/-- Byte of the ASCII uppercase hexadecimal digit for `d < 16`. -/
def hexUpperDigit (d : Nat) : Nat :=
  if d < 10 then 48 + d else 55 + d

/-- Digits of `n` in base 16, most significant first, empty for `n = 0`;
`fuel ≥ n` suffices. -/
def toHexUpperGo : Nat → Nat → List Nat
  | 0, _ => []
  | fuel + 1, n =>
    if n = 0 then [] else toHexUpperGo fuel (n / 16) ++ [hexUpperDigit (n % 16)]

/-- Python `f"{n:X}"` as a byte string: uppercase hex, no leading zeros,
`"0"` for zero. -/
def toHexUpper (n : Nat) : List Nat :=
  if n = 0 then [48] else toHexUpperGo n n

/-! ## The chunk codec (`_protocol.py` and `_read_chunked_body`) -/

/-- CRLF (`\r\n`) as bytes. -/
def crlf : List Nat := [13, 10]

/-- The `\r\n\r\n` header terminator as bytes. -/
def headerSep : List Nat := [13, 10, 13, 10]

/-- Model of `IcapProtocol._encode_chunk_terminator`: the fixed bytes `0\r\n\r\n`. -/
def chunkTerminator : List Nat := [48, 13, 10, 13, 10]

/-- Model of `IcapProtocol._encode_chunked`: empty input encodes to empty bytes,
otherwise `hex(len(data))` + CRLF + data + CRLF. -/
def encodeChunked (data : List Nat) : List Nat :=
  if data = [] then [] else toHexUpper data.length ++ crlf ++ data ++ crlf

/-- The `while b"\r\n" not in buffer` reader loop of `_read_chunked_body`
(icap.py 631-637 / async_icap.py 566-580).  The source is a list of recv
results; an exhausted list behaves like a closed socket (recv returns
empty).  Returns whether a CRLF is now buffered, the buffer, and the
remaining source. -/
def fillToCRLF : List (List Nat) → List Nat → Bool × List Nat × List (List Nat)
  | [], buffer =>
    if (findSub crlf buffer).isSome then (true, buffer, []) else (false, buffer, [])
  | c :: rest, buffer =>
    if (findSub crlf buffer).isSome then (true, buffer, c :: rest)
    else if c = [] then (false, buffer, rest)
    else fillToCRLF rest (buffer ++ c)

/-- The `while len(buffer) < chunk_size + 2` reader loop of
`_read_chunked_body` (icap.py 652-657 / async_icap.py 593-606). -/
def fillToLen : List (List Nat) → Int → List Nat → Bool × List Nat × List (List Nat)
  | [], need, buffer =>
    if (buffer.length : Int) < need then (false, buffer, []) else (true, buffer, [])
  | c :: rest, need, buffer =>
    if (buffer.length : Int) < need then
      if c = [] then (false, buffer, rest) else fillToLen rest need (buffer ++ c)
    else (true, buffer, c :: rest)

/-- Model of `IcapClient._read_chunked_body` (icap.py 616-663); the async variant
(async_icap.py 551-611) is byte-for-byte the same algorithm.  One outer
`while True` iteration per fuel unit.  Mirrors the source faithfully: when
the connection closes before a chunk is complete, or the chunk-size line
is not valid hexadecimal, the body accumulated so far is *returned* (the
code logs and returns; it raises no error).  `none` only means the fuel
bound was exceeded, which `readChunkedBody` makes impossible. -/
def readChunkedAux : Nat → List Nat → List Nat → List (List Nat) → Option (List Nat)
  | 0, _, _, _ => none
  | fuel + 1, buffer, body, reads =>
    match fillToCRLF reads buffer with
    | (false, _, _) => some body
    | (true, buffer1, reads1) =>
      let sp := splitOnce crlf buffer1
      match pyIntHexBytes (pyStripBytes (splitOnce [59] sp.1).1) with
      | none => some body
      | some sz =>
        if sz = 0 then some body
        else
          match fillToLen reads1 (sz + 2) (sp.2.getD []) with
          | (false, _, _) => some body
          | (true, buffer3, reads2) =>
            readChunkedAux fuel (pySliceStart (sz + 2) buffer3)
              (body ++ pySliceStop sz buffer3) reads2

/-- Model of `_read_chunked_body(initial_data)` with the socket delivering `reads`:
the fuel is an upper bound on the number of loop iterations. -/
def readChunkedBody (initial : List Nat) (reads : List (List Nat)) : Option (List Nat) :=
  readChunkedAux (initial.length + (reads.map List.length).sum + reads.length + 2)
    initial [] reads

/-! ## The response parser (`response.py::IcapResponse.parse`) -/

/-- Structured ICAP response (`response.py::IcapResponse`). -/
structure IcapResponseM where
  statusCode : Int
  statusMessage : String
  headers : List (String × String)
  body : List Nat
deriving DecidableEq, Repr

/-- UTF-8 continuation byte. -/
def isContByte (b : Nat) : Bool := decide (128 ≤ b ∧ b ≤ 191)

/-- Lower bound of the second byte of a UTF-8 sequence led by `b`
(excluding overlong encodings). -/
def cont2Lo (b : Nat) : Nat :=
  if b = 224 then 160 else if b = 240 then 144 else 128

/-- Upper bound of the second byte of a UTF-8 sequence led by `b`
(excluding surrogates and values above U+10FFFF). -/
def cont2Hi (b : Nat) : Nat :=
  if b = 237 then 159 else if b = 244 then 143 else 191

/-- Python `bytes.decode("utf-8", errors="ignore")`: strict UTF-8, dropping each
maximal invalid subpart (CPython skips the longest valid sequence prefix
and resumes at the offending byte).  Each step consumes at least one byte,
so `fuel = length` suffices. -/
def utf8Go : Nat → List Nat → List Char
  | 0, _ => []
  | _ + 1, [] => []
  | fuel + 1, b :: rest =>
    if b < 128 then Char.ofNat b :: utf8Go fuel rest
    else if 194 ≤ b ∧ b ≤ 223 then
      match rest with
      | [] => []
      | c :: rest2 =>
        if isContByte c then Char.ofNat ((b - 192) * 64 + (c - 128)) :: utf8Go fuel rest2
        else utf8Go fuel rest
    else if 224 ≤ b ∧ b ≤ 239 then
      match rest with
      | [] => []
      | c :: rest2 =>
        if cont2Lo b ≤ c ∧ c ≤ cont2Hi b then
          match rest2 with
          | [] => []
          | d :: rest3 =>
            if isContByte d then
              Char.ofNat ((b - 224) * 4096 + (c - 128) * 64 + (d - 128)) :: utf8Go fuel rest3
            else utf8Go fuel rest2
        else utf8Go fuel rest
    else if 240 ≤ b ∧ b ≤ 244 then
      match rest with
      | [] => []
      | c :: rest2 =>
        if cont2Lo b ≤ c ∧ c ≤ cont2Hi b then
          match rest2 with
          | [] => []
          | d :: rest3 =>
            if isContByte d then
              match rest3 with
              | [] => []
              | e :: rest4 =>
                if isContByte e then
                  Char.ofNat
                      ((b - 240) * 262144 + (c - 128) * 4096 + (d - 128) * 64 + (e - 128)) ::
                    utf8Go fuel rest4
                else utf8Go fuel rest3
            else utf8Go fuel rest2
        else utf8Go fuel rest
    else utf8Go fuel rest

/-- Python `bytes.decode("utf-8", errors="ignore")`. -/
def utf8DecodeIgnore (l : List Nat) : List Char := utf8Go l.length l

/-- Python `s.split(" ", 2)` on a string. -/
def pySplitSpace2 (l : List Char) : List (List Char) :=
  match splitOnce [' '] l with
  | (a, none) => [a]
  | (a, some r) =>
    match splitOnce [' '] r with
    | (b2, none) => [a, b2]
    | (b2, some r2) => [a, b2, r2]

/-- Python `dict` update: a later value for an existing key replaces it
in place; a new key is appended (insertion order preserved). -/
def assocUpdate : List (String × String) → String → String → List (String × String)
  | [], k, v => [(k, v)]
  | (k0, v0) :: rest, k, v =>
    if k0 = k then (k, v) :: rest else (k0, v0) :: assocUpdate rest k v

/-- Header-line folding of `IcapResponse.parse` (response.py 63-67):
lines without a colon are silently skipped; key and value are split at the
first colon and stripped; duplicate keys overwrite. -/
def parseHeaderLines (lines : List (List Char)) : List (String × String) :=
  lines.foldl
    (fun acc line =>
      match splitOnce [':'] line with
      | (_, none) => acc
      | (k, some v) =>
        assocUpdate acc (String.mk (pyStripChars k)) (String.mk (pyStripChars v)))
    []

/-- The status-line token list of `IcapResponse.parse`: first line of the
decoded header section, split as `status_line.split(" ", 2)`. -/
def statusParts (data : List Nat) : List (List Char) :=
  pySplitSpace2
    (((splitAll ['\r', '\n'] (utf8DecodeIgnore (splitOnce headerSep data).1))).headD [])

/-- Model of `IcapResponse.parse` (response.py 34-69): split the raw buffer at the
first `\r\n\r\n`, decode the header section as UTF-8 ignoring invalid
bytes, parse the status line, fold the header lines.  `none` models the
raised `ValueError`. -/
def parseIcapResponse (data : List Nat) : Option IcapResponseM :=
  let sp := splitOnce headerSep data
  let body := sp.2.getD []
  let lines := splitAll ['\r', '\n'] (utf8DecodeIgnore sp.1)
  let parts := pySplitSpace2 (lines.headD [])
  if parts.length < 3 then none
  else
    match pyIntDecChars (parts.getD 1 []) with
    | none => none
    | some code =>
      some { statusCode := code
             statusMessage := String.mk (parts.getD 2 [])
             headers := parseHeaderLines (lines.drop 1)
             body := body }

/-! ## Request building (`respmod` and `_calculate_respmod_encapsulated`) -/

/-- Model of `IcapProtocol._calculate_respmod_encapsulated` (_protocol.py 103-123):
with a (truthy, i.e. nonempty) HTTP request header the offsets are
`req-hdr=0, res-hdr=len(request), res-body=len(request)+len(headers)`;
without one they are `res-hdr=0, res-body=len(headers)`. -/
def calculateRespmodEncapsulated (httpRequest httpResponseHeaders : List Nat) : String :=
  if httpRequest ≠ [] then
    "req-hdr=0, res-hdr=" ++ toString httpRequest.length ++ ", res-body=" ++
      toString (httpRequest.length + httpResponseHeaders.length)
  else
    "res-hdr=0, res-body=" ++ toString httpResponseHeaders.length

/-- The HTTP-response split of `respmod` (icap.py 158-164 /
async_icap.py 221-227): split at the first `\r\n\r\n`, re-appending the
separator to the header part; with no separator the whole input is the
header section and the body is empty. -/
def respmodSplitResponse (httpResponse : List Nat) : List Nat × List Nat :=
  match splitOnce headerSep httpResponse with
  | (h, some bdy) => (h ++ headerSep, bdy)
  | (h, none) => (h, [])

/-- The `Encapsulated` value computed inline by `respmod` (icap.py
166-183; async_icap.py 229-245 is identical). -/
def respmodEncapsulatedHeader (httpRequest httpResponse : List Nat) : String :=
  let httpResHeaders := (respmodSplitResponse httpResponse).1
  let reqHdrLen := if httpRequest ≠ [] then httpRequest.length else 0
  let resHdrOffset := reqHdrLen
  let resBodyOffset := resHdrOffset + httpResHeaders.length
  if httpRequest ≠ [] then
    "req-hdr=0, res-hdr=" ++ toString resHdrOffset ++ ", res-body=" ++ toString resBodyOffset
  else
    "res-hdr=0, res-body=" ++ toString httpResHeaders.length

/-- Model of `IcapProtocol._build_request` (_protocol.py 19-33): request line,
`Key: Value` lines in dict insertion order, blank line, UTF-8 encoded. -/
def buildRequest (requestLine : String) (headers : List (String × String)) : List Nat :=
  strBytes (requestLine ++
    String.join (headers.map fun kv => kv.1 ++ ": " ++ kv.2 ++ "\r\n") ++ "\r\n")

/-- What `AsyncIcapClient.respmod` does with the built request. -/
inductive RespmodAction
  | previewSend (request body : List Nat) (previewSize : Int)
  | plainSend (request : List Nat)
deriving DecidableEq, Repr

/-- Model of `AsyncIcapClient.respmod` (async_icap.py 189-277) up to the
transmission: build the head; a non-`None` `preview` adds a
`Preview: <n>` header with **no validation of its value** and, when the
response carries a body, delegates to `_send_with_preview`; otherwise the
body is chunk-encoded inline.  The source has no error path before
I/O. -/
def asyncRespmod (host : String) (port : Nat) (service : String)
    (httpRequest httpResponse : List Nat) (preview : Option Int) : RespmodAction :=
  let requestLine := "RESPMOD icap://" ++ host ++ ":" ++ toString port ++ "/" ++ service ++
    " ICAP/1.0\r\n"
  let sp := respmodSplitResponse httpResponse
  let baseHeaders := [("Host", host ++ ":" ++ toString port),
    ("User-Agent", "Python-ICAP-Client/1.0"), ("Allow", "204"),
    ("Encapsulated", respmodEncapsulatedHeader httpRequest httpResponse)]
  let withPreview := match preview with
    | none => baseHeaders
    | some n => baseHeaders ++ [("Preview", toString n)]
  let request := buildRequest requestLine withPreview ++ httpRequest ++ sp.1
  match preview with
  | some n =>
    if sp.2 ≠ [] then .previewSend request sp.2 n
    else .plainSend (request ++ chunkTerminator)
  | none =>
    if sp.2 ≠ [] then
      .plainSend ((request ++ (toHexUpper sp.2.length ++ crlf) ++ sp.2 ++ crlf) ++
        chunkTerminator)
    else .plainSend (request ++ chunkTerminator)

/-! ## The receive loop and validation (`_send_and_receive`,
`_receive_response`) -/

/-- Outcome of one sync client operation, with the raised exception kinds
as constructors. -/
inductive SyncOutcome
  | ok (r : IcapResponseM)
  | protocolError
  | serverError (code : Int) (msg : String)
  | valueError
  | timeoutError
  | connectionError
  | outOfFuel
deriving DecidableEq, Repr

/-- Parse-and-validate tail shared by `_send_and_receive` (icap.py
603-614) and `_receive_response` (icap.py 474-484): a `ValueError` from
the parser becomes `IcapProtocolError`; a parsed status in [500, 600)
raises `IcapServerError` carrying the code and message; anything else is
returned. -/
def validateResponse (data : List Nat) : SyncOutcome :=
  match parseIcapResponse data with
  | none => .protocolError
  | some r =>
    if 500 ≤ r.statusCode ∧ r.statusCode < 600 then
      .serverError r.statusCode r.statusMessage
    else .ok r

/-- The `while header_end_marker not in response_data` loop (icap.py
543-548): accumulate reads until `\r\n\r\n` appears; an empty read (or an
exhausted source, which a closed socket turns into empty reads) breaks
out. -/
def recvUntilSep : List (List Nat) → List Nat → List Nat × List (List Nat)
  | [], acc => (acc, [])
  | c :: rest, acc =>
    if (findSub headerSep acc).isSome then (acc, c :: rest)
    else if c = [] then (acc, rest)
    else recvUntilSep rest (acc ++ c)

/-- The `while bytes_read < content_length` loop (icap.py 575-582): an
empty read breaks out with whatever body bytes were accumulated. -/
def recvContentLength : List (List Nat) → Int → Int → List Nat → List Nat × List (List Nat)
  | [], _, _, acc => (acc, [])
  | c :: rest, bytesRead, target, acc =>
    if bytesRead < target then
      if c = [] then (acc, rest)
      else recvContentLength rest (bytesRead + c.length) target (acc ++ c)
    else (acc, c :: rest)

/-- The header scan of `_send_and_receive` (icap.py 556-566): for each
line after the first that contains a colon, a `content-length` key parses
its stripped value with `int` — a non-integer raises an uncaught
`ValueError`, modelled `.error` — and a `transfer-encoding` value
containing `chunked` sets the chunked flag; there is no `break`, later
occurrences overwrite. -/
def scanHeadersFull : List (List Char) → Option Int → Bool → Except Unit (Option Int × Bool)
  | [], cl, ch => .ok (cl, ch)
  | line :: rest, cl, ch =>
    match splitOnce [':'] line with
    | (_, none) => scanHeadersFull rest cl ch
    | (k, some v) =>
      if toLowerChars (pyStripChars k) = ("content-length".data) then
        match pyIntDecChars (pyStripChars v) with
        | none => .error ()
        | some n => scanHeadersFull rest (some n) ch
      else if toLowerChars (pyStripChars k) = ("transfer-encoding".data) ∧
          (findSub ("chunked".data) (toLowerChars (pyStripChars v))).isSome then
        scanHeadersFull rest cl true
      else scanHeadersFull rest cl ch

/-- The header scan of `_receive_response` (icap.py 452-458): only
`Content-Length`, with a `break` after the first occurrence. -/
def scanHeadersCLOnly : List (List Char) → Except Unit (Option Int)
  | [] => .ok none
  | line :: rest =>
    match splitOnce [':'] line with
    | (_, none) => scanHeadersCLOnly rest
    | (k, some v) =>
      if toLowerChars (pyStripChars k) = ("content-length".data) then
        match pyIntDecChars (pyStripChars v) with
        | none => .error ()
        | some n => .ok (some n)
      else scanHeadersCLOnly rest

/-- The receive phase of `_send_and_receive` (icap.py 539-614) over a
list of socket read results, composed with the validation tail.  Note
what the source does on a connection that closes before `Content-Length`
bytes arrived: the loop breaks and the truncated buffer is parsed as if
complete. -/
def sendAndReceiveRecv (reads : List (List Nat)) : SyncOutcome :=
  let st := recvUntilSep reads []
  match findSub headerSep st.1 with
  | none => validateResponse st.1
  | some _ =>
    let sp := splitOnce headerSep st.1
    let bodyStart := sp.2.getD []
    let lines := splitAll ['\r', '\n'] (utf8DecodeIgnore sp.1)
    match scanHeadersFull (lines.drop 1) none false with
    | .error () => .valueError
    | .ok (some len, _) =>
      validateResponse
        (recvContentLength st.2 (bodyStart.length : Int) len
          ((sp.1 ++ headerSep) ++ bodyStart)).1
    | .ok (none, true) =>
      match readChunkedBody bodyStart st.2 with
      | none => .outOfFuel
      | some chunked => validateResponse ((sp.1 ++ headerSep) ++ chunked)
    | .ok (none, false) => validateResponse st.1

/-- Possible fates of the socket I/O of one `_send_and_receive` call. -/
inductive NetIO
  | delivered (reads : List (List Nat))
  | timedOut
  | osFailed
deriving DecidableEq, Repr

/-- Model of `_send_and_receive` (icap.py 523-614) including its exception
handlers (597-601): `socket.timeout` is re-raised as `IcapTimeoutError`
leaving `_connected` untouched; `OSError` sets `_connected = False` and
raises `IcapConnectionError`.  The async handler (async_icap.py 460-465)
is identical with `_writer = None` as the invalidation.  Returns the new
connected flag and the outcome. -/
def sendAndReceiveSync (connected : Bool) (io : NetIO) : Bool × SyncOutcome :=
  match io with
  | .delivered reads => (connected, sendAndReceiveRecv reads)
  | .timedOut => (connected, .timeoutError)
  | .osFailed => (false, .connectionError)

/-- Model of `_receive_response` (icap.py 432-484): like the receive phase of
`_send_and_receive` but with no chunked branch and a `break` after the
first `Content-Length` header. -/
def receiveResponseSync (reads : List (List Nat)) : SyncOutcome :=
  let st := recvUntilSep reads []
  match findSub headerSep st.1 with
  | none => validateResponse st.1
  | some _ =>
    let sp := splitOnce headerSep st.1
    let bodyStart := sp.2.getD []
    let lines := splitAll ['\r', '\n'] (utf8DecodeIgnore sp.1)
    match scanHeadersCLOnly (lines.drop 1) with
    | .error () => .valueError
    | .ok (some len) =>
      validateResponse
        (recvContentLength st.2 (bodyStart.length : Int) len
          ((sp.1 ++ headerSep) ++ bodyStart)).1
    | .ok none => validateResponse st.1

/-! ## Chunked stream scanning (`_scan_stream_chunked`, C9) -/

/-- One read from the caller-supplied source stream. -/
inductive StreamRead
  | data (chunk : List Nat)
  | ioError
deriving DecidableEq, Repr

/-- Model of the `_iter_chunks` consumption inside `_scan_stream_chunked` (icap.py
424-430): chunks are yielded until an empty read; an `OSError` raised by
`stream.read` aborts the iteration.  Returns the yielded chunks and
whether the error occurred. -/
def iterChunksWrites : List StreamRead → List (List Nat) × Bool
  | [] => ([], false)
  | .data c :: rest =>
    if c = [] then ([], false)
    else
      let r := iterChunksWrites rest
      (c :: r.1, r.2)
  | .ioError :: _ => ([], true)

/-- Model of `_scan_stream_chunked` (icap.py 335-422) after the request head has
been built: send the head, then per chunk the hex size line, the chunk
and a CRLF, then the terminator, then `_receive_response`.  The `try`
block's `except OSError` (icap.py 420-422) catches an `OSError` raised by
`stream.read` exactly like a socket failure: it sets
`_connected = False` and raises `IcapConnectionError`.  Returns the
connected flag, the `sendall` payloads, and the outcome. -/
def scanStreamChunked (connected : Bool) (head : List Nat) (source : List StreamRead)
    (reads : List (List Nat)) : Bool × List (List Nat) × SyncOutcome :=
  let it := iterChunksWrites source
  let chunkSends := (it.1.map fun c => [toHexUpper c.length ++ crlf, c, crlf]).flatten
  if it.2 then (false, head :: chunkSends, .connectionError)
  else (connected, (head :: chunkSends) ++ [chunkTerminator], receiveResponseSync reads)

/-! ## Preview negotiation (`AsyncIcapClient._send_with_preview`, C3) -/

/-- Model of `AsyncIcapClient._receive_response` (async_icap.py 480-549): read the
headers, then a Content-Length- or chunked-bounded body; returns the raw
buffer.  `valueErr` is the uncaught `ValueError` from `int()` on a bad
`Content-Length`. -/
inductive RawRecv
  | ok (data : List Nat)
  | valueErr
  | fuelOut
deriving DecidableEq, Repr

/-- See `RawRecv`. -/
def asyncReceiveRaw (reads : List (List Nat)) : RawRecv :=
  let st := recvUntilSep reads []
  match findSub headerSep st.1 with
  | none => .ok st.1
  | some _ =>
    let sp := splitOnce headerSep st.1
    let bodyStart := sp.2.getD []
    let lines := splitAll ['\r', '\n'] (utf8DecodeIgnore sp.1)
    match scanHeadersFull (lines.drop 1) none false with
    | .error () => .valueErr
    | .ok (some len, _) =>
      .ok (recvContentLength st.2 (bodyStart.length : Int) len
        ((sp.1 ++ headerSep) ++ bodyStart)).1
    | .ok (none, true) =>
      match readChunkedBody bodyStart st.2 with
      | none => .fuelOut
      | some chunked => .ok ((sp.1 ++ headerSep) ++ chunked)
    | .ok (none, false) => .ok st.1

/-- Observable trace of one `_send_with_preview` call: the
`writer.write` payloads, the number of `_receive_response` calls, and
the outcome. -/
structure PreviewTrace where
  writes : List (List Nat)
  readsUsed : Nat
  outcome : SyncOutcome
deriving DecidableEq, Repr

/-- One burst of socket reads per `_receive_response` call; an exhausted
environment behaves like a reader at EOF (empty reads). -/
def popEnv : List (List (List Nat)) → List (List Nat) × List (List (List Nat))
  | [] => ([], [])
  | r :: rest => (r, rest)

/-- Model of `AsyncIcapClient._send_with_preview` (async_icap.py 613-701).
Mirrors the source: the `ieof` marker is used iff the whole body fits in
the preview, the terminator is always part of the first write, the
`status_code == 100` check runs in *both* cases (also after an `ieof`
preview), on 100 the remainder chunk (when nonempty) and a terminator are
written and a second response is read, and the 5xx check applies to the
final response.  A parse `ValueError` propagates uncaught. -/
def sendWithPreview (request body : List Nat) (previewSize : Int)
    (env : List (List (List Nat))) : PreviewTrace :=
  let previewData := pySliceStop previewSize body
  let remainderData := pySliceStart previewSize body
  let isComplete := (body.length : Int) ≤ previewSize
  let chunkHeader :=
    if isComplete then toHexUpper previewData.length ++ strBytes "; ieof" ++ crlf
    else toHexUpper previewData.length ++ crlf
  let w1 := request ++ ((chunkHeader ++ previewData ++ crlf) ++ chunkTerminator)
  let e1 := popEnv env
  match asyncReceiveRaw e1.1 with
  | .fuelOut => ⟨[w1], 1, .outOfFuel⟩
  | .valueErr => ⟨[w1], 1, .valueError⟩
  | .ok d1 =>
    match parseIcapResponse d1 with
    | none => ⟨[w1], 1, .valueError⟩
    | some r1 =>
      if r1.statusCode = 100 then
        let ws :=
          if remainderData ≠ [] then
            [(toHexUpper remainderData.length ++ crlf) ++ remainderData ++ crlf,
              chunkTerminator]
          else [chunkTerminator]
        let e2 := popEnv e1.2
        match asyncReceiveRaw e2.1 with
        | .fuelOut => ⟨w1 :: ws, 2, .outOfFuel⟩
        | .valueErr => ⟨w1 :: ws, 2, .valueError⟩
        | .ok d2 =>
          match parseIcapResponse d2 with
          | none => ⟨w1 :: ws, 2, .valueError⟩
          | some r2 =>
            if 500 ≤ r2.statusCode ∧ r2.statusCode < 600 then
              ⟨w1 :: ws, 2, .serverError r2.statusCode r2.statusMessage⟩
            else ⟨w1 :: ws, 2, .ok r2⟩
      else
        if 500 ≤ r1.statusCode ∧ r1.statusCode < 600 then
          ⟨[w1], 1, .serverError r1.statusCode r1.statusMessage⟩
        else ⟨[w1], 1, .ok r1⟩

/-- Modelled from the spec (§4.3), as amended by C3's counterexample:
`previewPart = body[0:min(N, len(body))]`, `remainder = body[N:]`; when
the body fits in the preview the single write is the head plus the
`ieof`-marked chunk plus the terminator and one response is read; that
response is final unless its status is 100, in which case (amendment) a
bare terminator is written and a second, final response is read.  When
the body does not fit, the plain preview chunk plus terminator is sent,
one response is read; any status other than 100 is final and the
remainder is never sent; on 100 the remainder is sent as one chunk plus a
terminator and a second, final response is read.  The final response gets
the §4.5 status mapping (5xx escalates).  The spec does not constrain
responses that fail to parse; the code's behaviour (the error propagates)
is adopted for them. -/
def previewSpec (request body : List Nat) (previewSize : Int)
    (env : List (List (List Nat))) : PreviewTrace :=
  let previewPart := body.take (min previewSize.toNat body.length)
  let remainder := body.drop previewSize.toNat
  let fits := (body.length : Int) ≤ previewSize
  let ieofChunk := toHexUpper previewPart.length ++ strBytes "; ieof" ++ crlf ++
    previewPart ++ crlf ++ chunkTerminator
  let plainChunk := toHexUpper previewPart.length ++ crlf ++ previewPart ++ crlf ++
    chunkTerminator
  let remainderChunk := toHexUpper remainder.length ++ crlf ++ remainder ++ crlf
  let firstWrite := request ++ (if fits then ieofChunk else plainChunk)
  let e1 := popEnv env
  let finalize : List Nat → Nat → List (List Nat) → PreviewTrace := fun raw n ws =>
    match parseIcapResponse raw with
    | none => ⟨ws, n, .valueError⟩
    | some r =>
      if 500 ≤ r.statusCode ∧ r.statusCode < 600 then ⟨ws, n, .serverError r.statusCode r.statusMessage⟩
      else ⟨ws, n, .ok r⟩
  match asyncReceiveRaw e1.1 with
  | .fuelOut => ⟨[firstWrite], 1, .outOfFuel⟩
  | .valueErr => ⟨[firstWrite], 1, .valueError⟩
  | .ok d1 =>
    match parseIcapResponse d1 with
    | none => ⟨[firstWrite], 1, .valueError⟩
    | some r1 =>
      if r1.statusCode = 100 then
        let ws := if fits then [firstWrite, chunkTerminator]
          else [firstWrite, remainderChunk, chunkTerminator]
        let e2 := popEnv e1.2
        match asyncReceiveRaw e2.1 with
        | .fuelOut => ⟨ws, 2, .outOfFuel⟩
        | .valueErr => ⟨ws, 2, .valueError⟩
        | .ok d2 => finalize d2 2 ws
      else finalize d1 1 [firstWrite]

/-! ## Theorems -/

theorem take_len_append (l₁ l₂ : List α) : (l₁ ++ l₂).take l₁.length = l₁ := by
  induction l₁ with
  | nil => rfl
  | cons a t ih => simp [ih]

theorem drop_len_append (l₁ l₂ : List α) : (l₁ ++ l₂).drop l₁.length = l₂ := by
  induction l₁ with
  | nil => rfl
  | cons a t ih => simp [ih]

theorem drop_len_add_append (l₁ l₂ : List α) (n : Nat) :
    (l₁ ++ l₂).drop (l₁.length + n) = l₂.drop n := by
  induction l₁ with
  | nil => simp
  | cons a t ih => simp [Nat.succ_add, ih]

/-- A list beginning with `c` is never a prefix of a list beginning with a
different element. -/
theorem isPrefixOf_cons_ne (c a : α) (sep₀ t : List α) [DecidableEq α]
    (hca : c ≠ a) : (c :: sep₀).isPrefixOf (a :: t) = false := by
  rw [Bool.eq_false_iff]
  intro hpre
  rw [List.isPrefixOf_iff_prefix] at hpre
  rcases hpre with ⟨s, hs⟩
  exact hca (by simpa using congrArg (fun l => l.head?) hs)

/-- If the first element of `sep` does not occur in `l₁`, the first
occurrence of `sep` in `l₁ ++ (sep ++ r)` is at index `l₁.length`. -/
theorem findSub_append (c : α) (sep₀ l₁ r : List α) [DecidableEq α]
    (hnot : c ∉ l₁) :
    findSub (c :: sep₀) (l₁ ++ ((c :: sep₀) ++ r)) = some l₁.length := by
  induction l₁ with
  | nil =>
    have hpre : (c :: sep₀).isPrefixOf ((c :: sep₀) ++ r) = true := by
      rw [List.isPrefixOf_iff_prefix]
      exact List.prefix_append _ _
    simp [findSub, hpre]
  | cons a t ih =>
    have hca : c ≠ a := fun h => hnot (h ▸ List.mem_cons_self a t)
    have ht : c ∉ t := fun h => hnot (List.mem_cons_of_mem _ h)
    have hnp := isPrefixOf_cons_ne c a sep₀ (t ++ (c :: (sep₀ ++ r))) hca
    have ih2 := ih ht
    simp only [List.cons_append] at ih2 ⊢
    simp [findSub, hnp, ih2]

/-- If the first element of `sep` does not occur in `l`, `sep` does not
occur in `l` at all. -/
theorem findSub_eq_none (c : α) (sep₀ l : List α) [DecidableEq α]
    (hnot : c ∉ l) : findSub (c :: sep₀) l = none := by
  induction l with
  | nil => simp [findSub, List.isPrefixOf]
  | cons a t ih =>
    have hca : c ≠ a := fun h => hnot (h ▸ List.mem_cons_self a t)
    have ht : c ∉ t := fun h => hnot (List.mem_cons_of_mem _ h)
    have hnp := isPrefixOf_cons_ne c a sep₀ t hca
    simp [findSub, hnp, ih ht]

theorem splitOnce_append (c : α) (sep₀ l₁ r : List α) [DecidableEq α]
    (hnot : c ∉ l₁) :
    splitOnce (c :: sep₀) (l₁ ++ ((c :: sep₀) ++ r)) = (l₁, some r) := by
  rw [splitOnce, findSub_append c sep₀ l₁ r hnot]
  have h1 : (l₁ ++ ((c :: sep₀) ++ r)).take l₁.length = l₁ := take_len_append _ _
  have h2 : (l₁ ++ ((c :: sep₀) ++ r)).drop (l₁.length + (c :: sep₀).length) = r := by
    rw [drop_len_add_append, drop_len_append]
  simp only [h1, h2]

theorem splitOnce_no_occurrence (c : α) (sep₀ l : List α) [DecidableEq α]
    (hnot : c ∉ l) : splitOnce (c :: sep₀) l = (l, none) := by
  rw [splitOnce, findSub_eq_none c sep₀ l hnot]

/-! ### Rendering / parsing round trip for the chunk-size line -/

theorem toHexUpperGo_zero (fuel : Nat) : toHexUpperGo fuel 0 = [] := by
  cases fuel <;> simp [toHexUpperGo]

theorem hexUpperDigit_val_all :
    ∀ d, d < 16 → hexDigitVal (hexUpperDigit d) = some d := by decide

theorem hexUpperDigit_val (d : Nat) (h : d < 16) :
    hexDigitVal (hexUpperDigit d) = some d := hexUpperDigit_val_all d h

theorem toHexUpperGo_mem (fuel : Nat) :
    ∀ n b, b ∈ toHexUpperGo fuel n → ∃ d, d < 16 ∧ b = hexUpperDigit d := by
  induction fuel with
  | zero => intro n b h; simp [toHexUpperGo] at h
  | succ fuel ih =>
    intro n b h
    by_cases hn : n = 0
    · simp [toHexUpperGo, hn] at h
    · simp only [toHexUpperGo, hn, if_false, List.mem_append, List.mem_singleton] at h
      rcases h with h | h
      · exact ih _ _ h
      · exact ⟨n % 16, Nat.mod_lt _ (by norm_num), h⟩

theorem toHexUpperGo_head (fuel : Nat) :
    ∀ n, 0 < n → n ≤ fuel →
      ∃ d t, toHexUpperGo fuel n = hexUpperDigit d :: t ∧ 0 < d ∧ d < 16 := by
  induction fuel with
  | zero => intro n h1 h2; omega
  | succ fuel ih =>
    intro n h1 h2
    have hn : n ≠ 0 := Nat.pos_iff_ne_zero.mp h1
    by_cases hsm : n < 16
    · refine ⟨n, [], ?_, h1, hsm⟩
      have hdiv : n / 16 = 0 := Nat.div_eq_of_lt hsm
      have hmod : n % 16 = n := Nat.mod_eq_of_lt hsm
      simp [toHexUpperGo, hn, hdiv, hmod, toHexUpperGo_zero]
    · have hq : 0 < n / 16 := Nat.div_pos (le_of_not_lt hsm) (by norm_num)
      have hqf : n / 16 ≤ fuel := by
        have := Nat.div_lt_self h1 (show 1 < 16 by norm_num)
        omega
      rcases ih (n / 16) hq hqf with ⟨d, t, hgo, hd1, hd2⟩
      exact ⟨d, t ++ [hexUpperDigit (n % 16)], by simp [toHexUpperGo, hn, hgo], hd1, hd2⟩

theorem hexUpperDigit_ne_95 (d : Nat) (h : d < 16) : hexUpperDigit d ≠ 95 := by
  unfold hexUpperDigit
  split <;> omega

theorem digitsCore_hexGo (fuel : Nat) :
    ∀ n, n ≤ fuel → ∀ acc l,
      digitsCore hexDigitVal 16 acc (toHexUpperGo fuel n ++ l) =
        digitsCore hexDigitVal 16 (acc * 16 ^ (toHexUpperGo fuel n).length + n) l := by
  induction fuel with
  | zero =>
    intro n hn acc l
    have : n = 0 := Nat.le_zero.mp hn
    simp [this, toHexUpperGo]
  | succ fuel ih =>
    intro n hn acc l
    by_cases h0 : n = 0
    · simp [h0, toHexUpperGo]
    · have hq : n / 16 ≤ fuel := by
        have := Nat.div_lt_self (Nat.pos_of_ne_zero h0) (show 1 < 16 by norm_num)
        omega
      have hne95 : hexUpperDigit (n % 16) ≠ 95 :=
        hexUpperDigit_ne_95 _ (Nat.mod_lt _ (by norm_num))
      have hdv : hexDigitVal (hexUpperDigit (n % 16)) = some (n % 16) :=
        hexUpperDigit_val _ (Nat.mod_lt _ (by norm_num))
      have step : ∀ a l2, digitsCore hexDigitVal 16 a (hexUpperDigit (n % 16) :: l2) =
          digitsCore hexDigitVal 16 (16 * a + n % 16) l2 := by
        intro a l2
        simp [digitsCore, hne95, hdv]
      have hmod : 16 * (n / 16) + n % 16 = n := Nat.div_add_mod n 16
      calc digitsCore hexDigitVal 16 acc (toHexUpperGo (fuel + 1) n ++ l)
          = digitsCore hexDigitVal 16 acc
              (toHexUpperGo fuel (n / 16) ++ (hexUpperDigit (n % 16) :: l)) := by
            simp [toHexUpperGo, h0]
        _ = digitsCore hexDigitVal 16
              (acc * 16 ^ (toHexUpperGo fuel (n / 16)).length + n / 16)
              (hexUpperDigit (n % 16) :: l) := ih (n / 16) hq acc _
        _ = digitsCore hexDigitVal 16
              (16 * (acc * 16 ^ (toHexUpperGo fuel (n / 16)).length + n / 16) + n % 16)
              l := step _ _
        _ = digitsCore hexDigitVal 16
              (acc * 16 ^ (toHexUpperGo (fuel + 1) n).length + n) l := by
            congr 1
            have hlen : (toHexUpperGo (fuel + 1) n).length =
                (toHexUpperGo fuel (n / 16)).length + 1 := by
              simp [toHexUpperGo, h0]
            rw [hlen, pow_succ]
            generalize (16 : Nat) ^ (toHexUpperGo fuel (n / 16)).length = K
            calc 16 * (acc * K + n / 16) + n % 16
                = acc * K * 16 + (16 * (n / 16) + n % 16) := by ring
              _ = acc * K * 16 + n := by rw [hmod]
              _ = acc * (K * 16) + n := by ring

theorem pyStripBytes_noop (l : List Nat)
    (h : ∀ b ∈ l, isPySpaceByte b = false) : pyStripBytes l = l := by
  have hdw : ∀ m : List Nat, (∀ b ∈ m, isPySpaceByte b = false) →
      m.dropWhile isPySpaceByte = m := by
    intro m hm
    cases m with
    | nil => rfl
    | cons a t => simp [List.dropWhile_cons, hm a (List.mem_cons_self a t)]
  unfold pyStripBytes
  rw [hdw l h, hdw l.reverse (fun b hb => h b (List.mem_reverse.mp hb)),
    List.reverse_reverse]

theorem pyIntHexBytes_toHexUpper (n : Nat) :
    pyIntHexBytes (toHexUpper n) = some (n : Int) := by
  by_cases h0 : n = 0
  · subst h0; decide
  · have hpos : 0 < n := Nat.pos_of_ne_zero h0
    rcases toHexUpperGo_head n n hpos (le_refl n) with ⟨d, t, hgo, hd1, hd2⟩
    have hhex : toHexUpper n = toHexUpperGo n n := by simp [toHexUpper, h0]
    have hdigits : ∀ b ∈ toHexUpperGo n n, ∃ e, e < 16 ∧ b = hexUpperDigit e :=
      toHexUpperGo_mem n n
    have hrange : ∀ b ∈ toHexUpperGo n n, 48 ≤ b ∧ b ≤ 70 := by
      intro b hb
      rcases hdigits b hb with ⟨e, he, rfl⟩
      unfold hexUpperDigit
      split <;> omega
    have hnows : ∀ b ∈ toHexUpperGo n n, isPySpaceByte b = false := by
      intro b hb
      have := hrange b hb
      unfold isPySpaceByte
      simp only [Bool.or_eq_false_iff, decide_eq_false_iff_not]
      omega
    have hstrip : pyStripBytes (toHexUpperGo n n) = toHexUpperGo n n :=
      pyStripBytes_noop _ hnows
    have hheadrange : 48 ≤ hexUpperDigit d ∧ hexUpperDigit d ≤ 70 :=
      hrange (hexUpperDigit d) (by rw [hgo]; exact List.mem_cons_self _ _)
    have hhead48 : hexUpperDigit d ≠ 48 := by
      unfold hexUpperDigit
      split <;> omega
    have hsign : pySignSplit (toHexUpperGo n n) = (1, toHexUpperGo n n) := by
      rw [hgo]
      have h43 : hexUpperDigit d ≠ 43 := by omega
      have h45 : hexUpperDigit d ≠ 45 := by omega
      simp [pySignSplit, h43, h45]
    have hpfx : pyHexDropPfx (toHexUpperGo n n) = toHexUpperGo n n := by
      rw [hgo]
      cases t with
      | nil => rfl
      | cons ch t2 => simp [pyHexDropPfx, hhead48]
    have hheaddv : (hexDigitVal (hexUpperDigit d)).isSome = true := by
      rw [hexUpperDigit_val d hd2]; rfl
    have hcore : digitsCore hexDigitVal 16 0 (toHexUpperGo n n) = some n := by
      have := digitsCore_hexGo n n (le_refl n) 0 []
      simpa [digitsCore] using this
    have hofd : pyIntOfDigits hexDigitVal 16 (toHexUpperGo n n) = some n := by
      rw [hgo] at hcore ⊢
      simp [pyIntOfDigits, hheaddv, hcore]
    have hfin : pyIntHexBytes (toHexUpperGo n n) = some (n : Int) := by
      unfold pyIntHexBytes
      simp only [hstrip, hsign, hpfx, hofd]
      simp
    rw [hhex, hfin]

theorem toHexUpper_mem_digit (n b : Nat) (h : b ∈ toHexUpper n) :
    ∃ d, d < 16 ∧ b = hexUpperDigit d := by
  unfold toHexUpper at h
  by_cases h0 : n = 0
  · simp [h0] at h
    exact ⟨0, by norm_num, by simp [h, hexUpperDigit]⟩
  · rw [if_neg h0] at h
    exact toHexUpperGo_mem n n b h

theorem hexUpperDigit_range (d : Nat) (h : d < 16) :
    (48 ≤ hexUpperDigit d ∧ hexUpperDigit d ≤ 57) ∨
      (65 ≤ hexUpperDigit d ∧ hexUpperDigit d ≤ 70) := by
  unfold hexUpperDigit
  split <;> omega

theorem toHexUpper_digit_range (n : Nat) :
    ∀ b ∈ toHexUpper n, (48 ≤ b ∧ b ≤ 57) ∨ (65 ≤ b ∧ b ≤ 70) := by
  intro b hb
  rcases toHexUpper_mem_digit n b hb with ⟨d, hd, rfl⟩
  exact hexUpperDigit_range d hd

theorem toHexUpper_strip (n : Nat) : pyStripBytes (toHexUpper n) = toHexUpper n := by
  apply pyStripBytes_noop
  intro b hb
  have := toHexUpper_digit_range n b hb
  unfold isPySpaceByte
  simp only [Bool.or_eq_false_iff, decide_eq_false_iff_not]
  omega

theorem toHexUpper_not_mem_13 (n : Nat) : 13 ∉ toHexUpper n := by
  intro h
  have := toHexUpper_digit_range n 13 h
  omega

theorem toHexUpper_not_mem_59 (n : Nat) : 59 ∉ toHexUpper n := by
  intro h
  have := toHexUpper_digit_range n 59 h
  omega

/-- A `0\r\n\r\n` terminator in the buffer ends one decoding round
successfully with the body accumulated so far. -/
theorem readChunkedAux_terminator (fuel : Nat) (body : List Nat) :
    readChunkedAux (fuel + 1) chunkTerminator body [] = some body := by
  have h1 : fillToCRLF [] chunkTerminator = (true, chunkTerminator, []) := by decide
  have h2 : splitOnce crlf chunkTerminator = ([48], some [13, 10]) := by decide
  have h3 : pyIntHexBytes (pyStripBytes (splitOnce [59] [48]).1) = some 0 := by decide
  simp only [readChunkedAux, h1, h2, h3]
  simp

theorem readChunkedAux_roundtrip (b : List Nat) (k : Nat) (hb : b ≠ []) :
    readChunkedAux (k + 2) (encodeChunked b ++ chunkTerminator) [] [] = some b := by
  have hL : 0 < b.length := List.length_pos.mpr hb
  have hbuf : encodeChunked b ++ chunkTerminator =
      toHexUpper b.length ++ ([13, 10] ++ (b ++ ([13, 10] ++ [48, 13, 10, 13, 10]))) := by
    simp [encodeChunked, hb, crlf, chunkTerminator, List.append_assoc]
  have hfind0 : findSub [13, 10]
      (toHexUpper b.length ++ ([13, 10] ++ (b ++ ([13, 10] ++ [48, 13, 10, 13, 10])))) =
      some (toHexUpper b.length).length :=
    findSub_append 13 [10] (toHexUpper b.length) (b ++ ([13, 10] ++ [48, 13, 10, 13, 10]))
      (toHexUpper_not_mem_13 b.length)
  have hfind : (findSub crlf
      (toHexUpper b.length ++ ([13, 10] ++ (b ++ ([13, 10] ++
        [48, 13, 10, 13, 10]))))).isSome = true := by
    show (findSub [13, 10] _).isSome = true
    rw [hfind0]
    rfl
  have hfill : fillToCRLF []
      (toHexUpper b.length ++ ([13, 10] ++ (b ++ ([13, 10] ++ [48, 13, 10, 13, 10])))) =
      (true, toHexUpper b.length ++ ([13, 10] ++ (b ++ ([13, 10] ++ [48, 13, 10, 13, 10]))),
        []) := by
    show (if (findSub crlf
        (toHexUpper b.length ++ ([13, 10] ++ (b ++ ([13, 10] ++
          [48, 13, 10, 13, 10]))))).isSome = true then
        ((true, toHexUpper b.length ++ ([13, 10] ++ (b ++ ([13, 10] ++ [48, 13, 10, 13, 10]))),
          ([] : List (List Nat))) : Bool × List Nat × List (List Nat))
      else (false, toHexUpper b.length ++ ([13, 10] ++ (b ++ ([13, 10] ++ [48, 13, 10, 13, 10]))),
        [])) = (true,
        toHexUpper b.length ++ ([13, 10] ++ (b ++ ([13, 10] ++ [48, 13, 10, 13, 10]))), [])
    rw [hfind]
    simp
  have hsplit : splitOnce crlf
      (toHexUpper b.length ++ ([13, 10] ++ (b ++ ([13, 10] ++ [48, 13, 10, 13, 10])))) =
      (toHexUpper b.length, some (b ++ ([13, 10] ++ [48, 13, 10, 13, 10]))) := by
    show splitOnce [13, 10] _ = _
    exact splitOnce_append 13 [10] _ _ (toHexUpper_not_mem_13 b.length)
  have hsemi : splitOnce [59] (toHexUpper b.length) = (toHexUpper b.length, none) :=
    splitOnce_no_occurrence 59 [] _ (toHexUpper_not_mem_59 b.length)
  have hsize : pyIntHexBytes (pyStripBytes (splitOnce [59] (toHexUpper b.length)).1) =
      some (b.length : Int) := by
    rw [hsemi]
    show pyIntHexBytes (pyStripBytes (toHexUpper b.length)) = some (b.length : Int)
    rw [toHexUpper_strip, pyIntHexBytes_toHexUpper]
  have hsz0 : ¬((b.length : Int) = 0) := by
    simp only [Int.natCast_eq_zero]
    omega
  have hRlen : (b ++ ([13, 10] ++ [48, 13, 10, 13, 10])).length = b.length + 7 := by
    simp
  have hfill2 : fillToLen [] ((b.length : Int) + 2) (b ++ ([13, 10] ++ [48, 13, 10, 13, 10])) =
      (true, b ++ ([13, 10] ++ [48, 13, 10, 13, 10]), []) := by
    have hge : ¬(((b ++ ([13, 10] ++ [48, 13, 10, 13, 10])).length : Int) <
        (b.length : Int) + 2) := by
      rw [hRlen]
      push_cast
      omega
    simp [fillToLen, hge]
  have htake : pySliceStop (b.length : Int) (b ++ ([13, 10] ++ [48, 13, 10, 13, 10])) = b := by
    unfold pySliceStop
    rw [if_neg (by omega), Int.toNat_natCast, take_len_append]
  have hdrop : pySliceStart ((b.length : Int) + 2) (b ++ ([13, 10] ++ [48, 13, 10, 13, 10])) =
      [48, 13, 10, 13, 10] := by
    unfold pySliceStart
    rw [if_neg (by omega)]
    have hcast : ((b.length : Int) + 2).toNat = b.length + 2 := by omega
    rw [hcast]
    have hassoc : b ++ ([13, 10] ++ [48, 13, 10, 13, 10]) =
        (b ++ [13, 10]) ++ [48, 13, 10, 13, 10] := by
      simp [List.append_assoc]
    rw [hassoc]
    have hlen2 : b.length + 2 = (b ++ [13, 10]).length := by simp
    rw [hlen2, drop_len_append]
  rw [hbuf]
  show readChunkedAux (k + 1 + 1)
      (toHexUpper b.length ++ ([13, 10] ++ (b ++ ([13, 10] ++ [48, 13, 10, 13, 10])))) [] [] =
      some b
  simp only [readChunkedAux, hfill, hsplit, hsize, Option.getD_some, if_neg hsz0, hfill2,
    htake, hdrop, List.nil_append]
  exact readChunkedAux_terminator k b

/-- C1. For every byte string `b` (including the empty one), decoding
the stream `encodeChunk(b) + "0\r\n\r\n"` with the streaming chunked
decoder yields exactly `b`: the decoder is a left inverse of the
single-chunk encoder followed by the terminator. -/
theorem chunked_decode_encode_roundtrip (b : List Nat) :
    readChunkedBody (encodeChunked b ++ chunkTerminator) [] = some b := by
  unfold readChunkedBody
  by_cases hb : b = []
  · subst hb
    show readChunkedAux ((encodeChunked [] ++ chunkTerminator).length + 0 + 0 + 2)
      (encodeChunked [] ++ chunkTerminator) [] [] = some []
    have h5 : (encodeChunked [] ++ chunkTerminator).length + 0 + 0 + 2 = 6 + 1 := by decide
    rw [h5]
    have henc : encodeChunked [] ++ chunkTerminator = chunkTerminator := by decide
    rw [henc]
    exact readChunkedAux_terminator 6 []
  · have := readChunkedAux_roundtrip b ((encodeChunked b ++ chunkTerminator).length) hb
    simpa using this

/-! ## Claim theorems -/

/-- C2. The `Encapsulated` value of a RESPMOD request is exactly
`req-hdr=0, res-hdr=R, res-body=R+H` for a nonempty request header of
length `R` and response header section of length `H`, and exactly
`res-hdr=0, res-body=H` without a request header; it agrees with
`_calculate_respmod_encapsulated`, and `R = 40`, `H = 37` yield
`req-hdr=0, res-hdr=40, res-body=77`. -/
theorem respmod_encapsulated_offsets :
    (∀ httpRequest httpResponse : List Nat,
      respmodEncapsulatedHeader httpRequest httpResponse =
        if httpRequest = [] then
          "res-hdr=0, res-body=" ++ toString (respmodSplitResponse httpResponse).1.length
        else
          "req-hdr=0, res-hdr=" ++ toString httpRequest.length ++ ", res-body=" ++
            toString (httpRequest.length + (respmodSplitResponse httpResponse).1.length)) ∧
    (∀ httpRequest httpResponse : List Nat,
      respmodEncapsulatedHeader httpRequest httpResponse =
        calculateRespmodEncapsulated httpRequest (respmodSplitResponse httpResponse).1) ∧
    respmodEncapsulatedHeader (List.replicate 40 65) (List.replicate 37 72) =
      "req-hdr=0, res-hdr=40, res-body=77" := by
  refine ⟨fun req resp => ?_, fun req resp => ?_, by decide⟩
  · by_cases h : req = [] <;> simp [respmodEncapsulatedHeader, h]
  · by_cases h : req = [] <;>
      simp [respmodEncapsulatedHeader, calculateRespmodEncapsulated, h]

/-- C3 counterexample. The claim says a preview whose body fits
entirely (`len(b) ≤ N`, here 2 ≤ 5) is followed by exactly one response
read, final regardless of status.  On a first response with status 100
the code instead writes a bare terminator and performs a second read:
two writes and two reads occur. -/
theorem preview_ieof_100_second_read :
    ((strBytes "ab").length : Int) ≤ 5 ∧
    (sendWithPreview (strBytes "R") (strBytes "ab") 5
      [[strBytes "ICAP/1.0 100 Continue\r\n\r\n"],
        [strBytes "ICAP/1.0 204 No Content\r\n\r\n"]]).readsUsed = 2 ∧
    (sendWithPreview (strBytes "R") (strBytes "ab") 5
      [[strBytes "ICAP/1.0 100 Continue\r\n\r\n"],
        [strBytes "ICAP/1.0 204 No Content\r\n\r\n"]]).writes.length = 2 := by
  refine ⟨by decide, by decide, by decide⟩

set_option maxRecDepth 40000 in
/-- C4. The repository's tests assert that `respmod` with
`preview=0` or a negative preview raises a `ValueError` ("positive
integer") before any I/O.  The code under `src/pycap` performs no
validation at all: the call proceeds, the `Preview` header carries the
value verbatim (`Preview: 0` / `Preview: -5`), and the body is handed to
`_send_with_preview`, so bytes are sent. -/
theorem respmod_preview_not_validated :
    asyncRespmod "localhost" 1344 "avscan" (strBytes "GET / HTTP/1.1\r\n\r\n")
        (strBytes "HTTP/1.1 200 OK\r\n\r\nbody") (some 0) =
      .previewSend
        (strBytes ("RESPMOD icap://localhost:1344/avscan ICAP/1.0\r\n" ++
          "Host: localhost:1344\r\nUser-Agent: Python-ICAP-Client/1.0\r\n" ++
          "Allow: 204\r\nEncapsulated: req-hdr=0, res-hdr=18, res-body=37\r\n" ++
          "Preview: 0\r\n\r\nGET / HTTP/1.1\r\n\r\nHTTP/1.1 200 OK\r\n\r\n"))
        (strBytes "body") 0 ∧
    asyncRespmod "localhost" 1344 "avscan" (strBytes "GET / HTTP/1.1\r\n\r\n")
        (strBytes "HTTP/1.1 200 OK\r\n\r\nbody") (some (-5)) =
      .previewSend
        (strBytes ("RESPMOD icap://localhost:1344/avscan ICAP/1.0\r\n" ++
          "Host: localhost:1344\r\nUser-Agent: Python-ICAP-Client/1.0\r\n" ++
          "Allow: 204\r\nEncapsulated: req-hdr=0, res-hdr=18, res-body=37\r\n" ++
          "Preview: -5\r\n\r\nGET / HTTP/1.1\r\n\r\nHTTP/1.1 200 OK\r\n\r\n"))
        (strBytes "body") (-5) := by
  refine ⟨by decide, by decide⟩

/-- C5. The repository's tests assert that an invalid chunk-size
line raises `IcapProtocolError` and that a source exhausted mid-chunk
raises a connection-closed protocol error.  The code under `src/pycap`
instead returns the partial payload accumulated so far as a successful
result in all three situations: an invalid size line after a good chunk,
a close while chunk data is pending, and a close while the size line is
pending. -/
theorem chunked_decoder_returns_partial_payload :
    readChunkedBody (strBytes "2\r\nab\r\nnot-hex\r\n") [] = some (strBytes "ab") ∧
    readChunkedBody [] [strBytes "5\r\nHello", []] = some [] ∧
    readChunkedBody (strBytes "A\r\n") [] = some [] := by
  refine ⟨by decide, by decide, by decide⟩

/-- C6. The repository's tests assert that a connection closing
before `Content-Length` bytes arrive raises `IcapProtocolError`
mentioning the expected and received counts.  The code under `src/pycap`
instead breaks out of the read loop and returns the response parsed from
the truncated buffer: `Content-Length: 100` with 7 delivered body bytes
yields a successful 200 response with a 7-byte body, and the connection
stays marked connected. -/
theorem content_length_truncation_returns_parsed_response :
    sendAndReceiveSync true
      (.delivered [strBytes "ICAP/1.0 200 OK\r\nContent-Length: 100\r\n\r\npartial"]) =
    (true, .ok ⟨200, "OK", [("Content-Length", "100")], strBytes "partial"⟩) := by decide

/-- C7. After the receive phase, `IcapServerError` is raised exactly
for a successfully parsed response with status in [500, 600); a parse
failure always surfaces as `IcapProtocolError`, never `IcapServerError`;
a structurally valid 500 raises the server error with its code and
message, and a structurally valid 404 is returned. -/
theorem server_error_iff_parsed_5xx :
    (∀ data : List Nat,
      ((∃ code msg, validateResponse data = .serverError code msg) ↔
        ∃ r, parseIcapResponse data = some r ∧ 500 ≤ r.statusCode ∧ r.statusCode < 600) ∧
      (validateResponse data = .protocolError ↔ parseIcapResponse data = none)) ∧
    validateResponse (strBytes "ICAP/1.0 500 Internal Server Error\r\nServer: Test\r\n\r\n") =
      .serverError 500 "Internal Server Error" ∧
    validateResponse (strBytes "ICAP/1.0 404 Service Not Found\r\nServer: Test\r\n\r\n") =
      .ok ⟨404, "Service Not Found", [("Server", "Test")], []⟩ := by
  refine ⟨fun data => ?_, by decide, by decide⟩
  cases hp : parseIcapResponse data with
  | none => simp [validateResponse, hp]
  | some r =>
    by_cases h5 : 500 ≤ r.statusCode ∧ r.statusCode < 600
    · simp only [validateResponse, hp, if_pos h5]
      constructor
      · constructor
        · intro _
          exact ⟨r, rfl, h5⟩
        · intro _
          exact ⟨r.statusCode, r.statusMessage, rfl⟩
      · simp
    · simp only [validateResponse, hp, if_neg h5]
      constructor
      · constructor
        · intro ⟨code, msg, hcm⟩
          exact absurd hcm (by simp)
        · intro ⟨r2, hr2, hrange⟩
          rw [Option.some_inj] at hr2
          exact absurd (hr2 ▸ hrange) h5
      · simp

/-- C8 counterexample. The claim says a timeout on a send or read
invalidates the connection (`is_connected` becomes `False`).  In the
code a `socket.timeout` raises `IcapTimeoutError` without touching
`_connected`: starting connected, the timeout leaves the client still
reporting connected. -/
theorem timeout_leaves_connection_connected :
    sendAndReceiveSync true NetIO.timedOut = (true, SyncOutcome.timeoutError) ∧
    (sendAndReceiveSync true NetIO.timedOut).1 ≠ false := by
  refine ⟨rfl, by decide⟩

/-- C8 amended. Only a connection error (`OSError`) invalidates the
connection; a timeout raises `IcapTimeoutError` and leaves the connected
flag unchanged, and a completed exchange leaves it unchanged as well. -/
theorem only_connection_errors_invalidate (connected : Bool) :
    sendAndReceiveSync connected .osFailed = (false, .connectionError) ∧
    sendAndReceiveSync connected .timedOut = (connected, .timeoutError) ∧
    ∀ reads, (sendAndReceiveSync connected (.delivered reads)).1 = connected :=
  ⟨rfl, rfl, fun _ => rfl⟩

/-- C9. The repository's tests assert that an `OSError` raised by
`stream.read` during chunked stream scanning surfaces as
`IcapProtocolError` ("Failed to read from stream").  The code under
`src/pycap` catches it in `_scan_stream_chunked`'s generic `OSError`
handler: the failure surfaces as `IcapConnectionError` (a transport
error) and the connection is marked disconnected; the chunks read before
the failure were already written. -/
theorem stream_read_failure_maps_to_connection_error :
    scanStreamChunked true (strBytes "HEAD") [.data (strBytes "abc"), .ioError] [] =
      (false, [strBytes "HEAD", strBytes "3\r\n", strBytes "abc", strBytes "\r\n"],
        .connectionError) := by decide

/-- C10. `IcapResponse.parse` fails exactly when the first line of
the (UTF-8-decoded, invalid bytes dropped) header section splits on
spaces (maxsplit 2) into fewer than three tokens or its second token is
not an integer; whenever it succeeds, the body is byte-for-byte the
input after the first `\r\n\r\n` and the header map is folded from the
colon-containing lines only (others are skipped without error). -/
theorem parse_fails_iff_bad_status_line (data : List Nat) :
    ((parseIcapResponse data).isNone ↔
      ((statusParts data).length < 3 ∨ pyIntDecChars ((statusParts data).getD 1 []) = none)) ∧
    (parseIcapResponse data).elim True
      (fun r =>
        r.body = (splitOnce headerSep data).2.getD [] ∧
        r.headers = parseHeaderLines
          ((splitAll ['\r', '\n'] (utf8DecodeIgnore (splitOnce headerSep data).1)).drop 1)) := by
  have hform : parseIcapResponse data =
      (if (statusParts data).length < 3 then none
       else
        match pyIntDecChars ((statusParts data).getD 1 []) with
        | none => none
        | some code =>
          some ⟨code, String.mk ((statusParts data).getD 2 []),
            parseHeaderLines
              ((splitAll ['\r', '\n'] (utf8DecodeIgnore (splitOnce headerSep data).1)).drop 1),
            (splitOnce headerSep data).2.getD []⟩) := rfl
  rw [hform]
  by_cases h3 : (statusParts data).length < 3
  · rw [if_pos h3]
    exact ⟨by simp [h3], trivial⟩
  · rw [if_neg h3]
    cases hcode : pyIntDecChars ((statusParts data).getD 1 []) with
    | none => exact ⟨by simp [h3, hcode], trivial⟩
    | some c =>
      refine ⟨by simp [h3, hcode], ?_⟩
      simp [Option.elim]

/-- C3 amended. For every positive preview size the preview exchange
follows the spec §4.3 with one amendment: also after an `ieof` preview
(body fits), a first response with status 100 is *not* final — a bare
terminator is written and a second, final response is read.  All write
payloads, read counts and the finality/5xx mapping agree with the
spec-side description `previewSpec`. -/
theorem sendWithPreview_matches_amended_spec (request body : List Nat) (N : Int)
    (env : List (List (List Nat))) (hN : 1 ≤ N) :
    sendWithPreview request body N env = previewSpec request body N env := by
  have hN0 : ¬(N < 0) := by omega
  have hslice : pySliceStop N body = body.take (min N.toNat body.length) := by
    unfold pySliceStop
    rw [if_neg hN0]
    rcases le_or_lt N.toNat body.length with h | h
    · rw [min_eq_left h]
    · rw [min_eq_right (Nat.le_of_lt h), List.take_length]
      exact List.take_of_length_le (Nat.le_of_lt h)
  have hdrop : pySliceStart N body = body.drop N.toNat := by
    unfold pySliceStart
    rw [if_neg hN0]
  by_cases hfits : (body.length : Int) ≤ N
  · have hrem : body.drop N.toNat = [] := by
      have hle : body.length ≤ N.toNat := by omega
      exact List.drop_eq_nil_of_le hle
    simp only [sendWithPreview, previewSpec, hslice, hdrop, hrem, if_pos hfits]
    cases h1 : asyncReceiveRaw (popEnv env).1 with
    | fuelOut => simp [List.append_assoc]
    | valueErr => simp [List.append_assoc]
    | ok d1 =>
      dsimp only
      cases hp1 : parseIcapResponse d1 with
      | none => simp [List.append_assoc]
      | some r1 =>
        dsimp only
        by_cases h100 : r1.statusCode = 100
        · simp only [if_pos h100]
          cases h2 : asyncReceiveRaw (popEnv (popEnv env).2).1 with
          | fuelOut => simp [List.append_assoc]
          | valueErr => simp [List.append_assoc]
          | ok d2 =>
            dsimp only
            cases hp2 : parseIcapResponse d2 with
            | none => simp [List.append_assoc]
            | some r2 =>
              by_cases h5 : 500 ≤ r2.statusCode ∧ r2.statusCode < 600 <;>
                simp [h5, List.append_assoc]
        · by_cases h5 : 500 ≤ r1.statusCode ∧ r1.statusCode < 600 <;>
            simp [h100, h5, List.append_assoc]
  · have hlt : N.toNat < body.length := by omega
    have hrem : body.drop N.toNat ≠ [] := by
      intro hcon
      have := List.drop_eq_nil_iff.mp hcon
      omega
    simp only [sendWithPreview, previewSpec, hslice, hdrop, if_neg hfits]
    cases h1 : asyncReceiveRaw (popEnv env).1 with
    | fuelOut => simp [List.append_assoc]
    | valueErr => simp [List.append_assoc]
    | ok d1 =>
      dsimp only
      cases hp1 : parseIcapResponse d1 with
      | none => simp [List.append_assoc]
      | some r1 =>
        dsimp only
        by_cases h100 : r1.statusCode = 100
        · simp only [if_pos h100, ne_eq, hrem, not_false_eq_true, if_true]
        · by_cases h5 : 500 ≤ r1.statusCode ∧ r1.statusCode < 600 <;>
            simp [h100, h5, List.append_assoc]

/-- Witness for the amended C3 theorem at a concrete exchange: body of
3 bytes, preview size 2, a 100 Continue followed by a 204. -/
theorem sendWithPreview_matches_amended_spec_witness :
    (1 : Int) ≤ 2 ∧
    sendWithPreview (strBytes "R") (strBytes "abc") 2
        [[strBytes "ICAP/1.0 100 Continue\r\n\r\n"],
          [strBytes "ICAP/1.0 204 No Content\r\n\r\n"]] =
      previewSpec (strBytes "R") (strBytes "abc") 2
        [[strBytes "ICAP/1.0 100 Continue\r\n\r\n"],
          [strBytes "ICAP/1.0 204 No Content\r\n\r\n"]] :=
  ⟨by norm_num,
    sendWithPreview_matches_amended_spec (strBytes "R") (strBytes "abc") 2
      [[strBytes "ICAP/1.0 100 Continue\r\n\r\n"],
        [strBytes "ICAP/1.0 204 No Content\r\n\r\n"]] (by norm_num)⟩

end Pycap
